import Mathlib

/-!
Shallow embedding of the goose realtime provider
(`packages/exchange/src/exchange/providers/openai_realtime.py`) and of the CLI
session interrupt recovery (`src/goose/cli/session.py`), together with
theorems about the streaming tool-call protocol engine.

External library calls are represented explicitly: the Python standard
library JSON decoder (`json.loads`) is a parameter `parse : String → Option
JVal` (returning `none` exactly when the decoder raises `JSONDecodeError`),
and the single subprocess invocation `subprocess.check_output(["ls"]).decode()`
is a parameter `run_ls : Except String String` (`ok` carries the decoded
standard output, `error` carries the text of the raised exception).
-/

namespace Goose

/-- JSON values as produced by the Python standard library decoder.  Objects
are represented as key-value lists with distinct keys (the decoder keeps only
the last occurrence of a duplicated key, so its output has unique keys). -/
inductive JVal where
  | jnull
  | jbool (b : Bool)
  | jnum (n : Int)
  | jstr (s : String)
  | jarr (xs : List JVal)
  | jobj (kvs : List (String × JVal))

/-- Does the character list `hay` start with the character list `needle`? -/
def charsStartWith : List Char → List Char → Bool
  | [], _ => true
  | _ :: _, [] => false
  | a :: as, b :: bs => a = b && charsStartWith as bs

/-- Does the character list contain `needle` as a contiguous run? -/
def charsContain (needle : List Char) : List Char → Bool
  | [] => charsStartWith needle []
  | b :: bs => charsStartWith needle (b :: bs) || charsContain needle bs

/-- Python substring membership `needle in hay` for strings. -/
def pyStrContains (needle hay : String) : Bool :=
  charsContain needle.toList hay.toList

/-- Python membership test `"command" in args` on a decoded JSON value.
Dictionaries test key membership, lists test element equality, strings test
substring containment; numbers, booleans and null raise `TypeError`, which is
modelled as `Except.error`. -/
def pyInCommand : JVal → Except Unit Bool
  | .jobj kvs => .ok (kvs.any (fun kv => kv.1 = "command"))
  | .jarr xs => .ok (xs.any (fun x => match x with | .jstr s => s = "command" | _ => false))
  | .jstr s => .ok (pyStrContains "command" s)
  | _ => .error ()

/-- Python subscription `args["command"]` on a decoded JSON value.  Only a
dictionary with the key present succeeds; a list or a string raises
`TypeError` for a string index, a missing key raises `KeyError`; every raise
is modelled as `Except.error`. -/
def pyIndexCommand : JVal → Except Unit JVal
  | .jobj kvs =>
      match kvs.find? (fun kv => kv.1 = "command") with
      | some kv => .ok kv.2
      | none => .error ()
  | _ => .error ()

/-- Python equality `v == "ls"` on a decoded JSON value: true exactly for the
string `"ls"`; values of other types compare unequal without raising. -/
def pyEqLs : JVal → Bool
  | .jstr s => s = "ls"
  | _ => false

/-- A tool call dictionary as assembled by `send_message`: the fields
`id`, `type`, `function.name` and `function.arguments`, plus the `error`
key that `on_done` attaches when the argument buffer is not valid JSON
(`none` when the key is absent). -/
structure ToolCall where
  id : String
  name : String
  arguments : String
  error : Option String
deriving DecidableEq

/-- The session-scoped mutable fields of `RealtimeWebSocket`.  The handle
`self.ws` is `none` when the attribute is `None` and `some b` for a handle
whose `connected` flag is `b`. -/
structure WSState where
  ws : Option Bool
  is_first_connection : Bool
  tool_call_count : Nat
  max_tool_calls : Nat
  current_tool_result : Option String
  current_tool_id : Option String
deriving DecidableEq

/-- The initial field values assigned by `RealtimeWebSocket.__init__`. -/
def RealtimeWebSocket.init : WSState :=
  { ws := none
    is_first_connection := true
    tool_call_count := 0
    max_tool_calls := 10
    current_tool_result := none
    current_tool_id := none }

/-- Decoded protocol events, one constructor per `event["type"]` branch of the
receive loop; `otherEvent` covers every unrecognized type, which the loop
skips. -/
inductive RTEvent where
  | errorEvent (payload : String)
  | textDelta (delta : String)
  | functionCallDelta (tool_call_id : Option String) (function_name : Option String) (delta : String)
  | functionCallDone
  | responseDone
  | otherEvent (kind : String)
deriving DecidableEq

/-- The outcome of one `self.ws.recv()` plus `json.loads` on the raw frame:
a decoded event, a socket timeout, or a frame that is not valid JSON. -/
inductive RecvOutcome where
  | ok (ev : RTEvent)
  | recvTimeout
  | badJson
deriving DecidableEq

/-- The exceptions `send_message` can raise out of the receive loop. -/
inductive RTError where
  | timeoutExceeded
  | recvFailed
  | limitExceeded (m : Nat)
  | apiError (payload : String)
  | typeErr
  | connectFailed
deriving DecidableEq

/-- The loop-local accumulators of `send_message`: the running reply text,
the finished tool calls, and the in-progress tool call. -/
structure LoopLocal where
  content_text : String
  tool_calls : List ToolCall
  current_tool_call : Option ToolCall
deriving DecidableEq

/-- The relevant parts of the response dictionary built on `response.done`:
`choices[0].message.content` (which is `None` when the text buffer is empty)
and the tool-call list (the key is only set when nonempty; an absent key and
an empty list are indistinguishable to both consumers, which default it). -/
structure RTResponse where
  content : Option String
  tool_calls : List ToolCall
deriving DecidableEq

/-- Result of processing one received frame in the receive loop: continue,
return the final response, or raise. -/
inductive StepResult where
  | next (st : WSState) (loc : LoopLocal)
  | finished (st : WSState) (resp : RTResponse)
  | raised (st : WSState) (e : RTError)
deriving DecidableEq

/-- The session state carried by a step result. -/
def StepResult.wsState : StepResult → WSState
  | .next st _ => st
  | .finished st _ => st
  | .raised st _ => st

/-- Text of the stored tool result: the decoded standard output on success,
the text of the raised exception otherwise. -/
def runLsOutput : Except String String → String
  | .ok out => out
  | .error e => e

/-- Handler for `response.function_call_arguments.done` (the assembler's
`on_done`): validate the accumulated buffer with `json.loads`; on failure,
attach the parse diagnostic and still append the call; on success, record the
call id, run the hard-coded `ls` subprocess when the arguments are a
dictionary whose `command` equals `"ls"`, and append the call.  The `in` and
subscription operators can raise `TypeError` on non-dictionary arguments,
which escapes the narrow `except json.JSONDecodeError` clause. -/
def applyDone (parse : String → Option JVal) (run_ls : Except String String)
    (st : WSState) (loc : LoopLocal) : StepResult :=
  match loc.current_tool_call with
  | none => .next st loc
  | some c =>
    match parse c.arguments with
    | none =>
        .next st
          { loc with
            tool_calls := loc.tool_calls ++
              [{ c with error := some ("Invalid JSON arguments: " ++ c.arguments) }]
            current_tool_call := none }
    | some v =>
        let st1 := { st with current_tool_id := some c.id }
        match pyInCommand v with
        | .error _ => .raised st1 .typeErr
        | .ok false =>
            .next st1 { loc with tool_calls := loc.tool_calls ++ [c], current_tool_call := none }
        | .ok true =>
            match pyIndexCommand v with
            | .error _ => .raised st1 .typeErr
            | .ok cv =>
                if pyEqLs cv then
                  .next { st1 with current_tool_result := some (runLsOutput run_ls) }
                    { loc with tool_calls := loc.tool_calls ++ [c], current_tool_call := none }
                else
                  .next st1 { loc with tool_calls := loc.tool_calls ++ [c], current_tool_call := none }

/-- One iteration of the receive loop of `send_message`, processing the frame
received at clock time `t`: first the elapsed-time check, then the receive
errors, then the tool-call budget check, then dispatch on the event type. -/
def processEvent (parse : String → Option JVal) (run_ls : Except String String)
    (timeout start : Nat) (st : WSState) (loc : LoopLocal)
    (t : Nat) (out : RecvOutcome) : StepResult :=
  if timeout < t - start then .raised st .timeoutExceeded
  else
    match out with
    | .recvTimeout => .raised st .recvFailed
    | .badJson => .raised st .recvFailed
    | .ok ev =>
      if st.max_tool_calls ≤ st.tool_call_count then
        .raised st (.limitExceeded st.max_tool_calls)
      else
        match ev with
        | .errorEvent payload => .raised st (.apiError payload)
        | .textDelta d => .next st { loc with content_text := loc.content_text ++ d }
        | .functionCallDelta tool_call_id function_name d =>
          match loc.current_tool_call with
          | none =>
            let opened : ToolCall :=
              { id := tool_call_id.getD ("call_" ++ toString loc.tool_calls.length)
                name := function_name.getD "shell"
                arguments := d
                error := none }
            .next { st with tool_call_count := st.tool_call_count + 1 }
              { loc with current_tool_call := some opened }
          | some c =>
            .next st { loc with current_tool_call := some { c with arguments := c.arguments ++ d } }
        | .functionCallDone => applyDone parse run_ls st loc
        | .responseDone =>
          .finished st
            { content := if loc.content_text = "" then none else some loc.content_text
              tool_calls := loc.tool_calls }
        | .otherEvent _ => .next st loc

/-- Result of running the receive loop over a finite trace of frames:
a final response, a raised exception, or an exhausted trace with the loop
still blocked waiting for the next frame. -/
inductive RunResult where
  | finished (st : WSState) (resp : RTResponse)
  | raised (st : WSState) (e : RTError)
  | exhausted (st : WSState) (loc : LoopLocal)
deriving DecidableEq

/-- The session state carried by a run result. -/
def RunResult.wsState : RunResult → WSState
  | .finished st _ => st
  | .raised st _ => st
  | .exhausted st _ => st

/-- The receive loop of `send_message` over a finite trace of frames, each
paired with the event-loop clock value observed at the top of its
iteration. -/
def runLoop (parse : String → Option JVal) (run_ls : Except String String)
    (timeout start : Nat) : WSState → LoopLocal → List (Nat × RecvOutcome) → RunResult
  | st, loc, [] => .exhausted st loc
  | st, loc, (t, out) :: rest =>
    match processEvent parse run_ls timeout start st loc t out with
    | .next st2 loc2 => runLoop parse run_ls timeout start st2 loc2 rest
    | .finished st2 resp => .finished st2 resp
    | .raised st2 e => .raised st2 e

/-- The `except` clause of `send_message`: when the handle exists and is
connected, close it — swallowing any exception the close itself raises — and
drop it; otherwise leave the state untouched.  No counter or flag is reset
here. -/
def cleanupOnError (_close_raises : Bool) (st : WSState) : WSState :=
  match st.ws with
  | some true => { st with ws := none }
  | _ => st

/-- The `close` method of `RealtimeWebSocket`: close and drop the handle when
present. -/
def RealtimeWebSocket.close (st : WSState) : WSState :=
  match st.ws with
  | none => st
  | some _ => { st with ws := none }

/-- The flush of a stored tool result performed before sending a new message:
the result is sent back as a user message and both stored fields are
cleared. -/
def flushToolResult (st : WSState) : WSState :=
  if st.current_tool_result.isSome then
    { st with current_tool_result := none, current_tool_id := none }
  else st

/-- Outcome of `send_message`: a response, an exception propagated after the
error-path cleanup ran, or a run still blocked on the next frame. -/
inductive SendResult where
  | ok (st : WSState) (resp : RTResponse)
  | error (st : WSState) (e : RTError)
  | blocked (st : WSState) (loc : LoopLocal)
deriving DecidableEq

/-- The whole of `RealtimeWebSocket.send_message`: reconnect when the handle
is absent or not connected (replaying history on a fresh connection — the
replay only sends and touches no modelled state), flush a stored tool result,
send the user message and the `response.create` event, then run the receive
loop; every raised exception passes through the cleanup clause before
propagating.  `connect_ok` is the outcome of `websocket.create_connection`
and `close_raises` the behavior of the close call inside the cleanup
clause. -/
def send_message (parse : String → Option JVal) (run_ls : Except String String)
    (connect_ok close_raises : Bool) (timeout start : Nat)
    (st : WSState) (events : List (Nat × RecvOutcome)) : SendResult :=
  match st.ws with
  | some true =>
    send_message_rest parse run_ls close_raises timeout start st events
  | _ =>
    if connect_ok then
      send_message_rest parse run_ls close_raises timeout start { st with ws := some true } events
    else
      .error (cleanupOnError close_raises st) .connectFailed
where
  send_message_rest (parse : String → Option JVal) (run_ls : Except String String)
      (close_raises : Bool) (timeout start : Nat)
      (st1 : WSState) (events : List (Nat × RecvOutcome)) : SendResult :=
    match runLoop parse run_ls timeout start (flushToolResult st1) ⟨"", [], none⟩ events with
    | .finished st3 resp => .ok st3 resp
    | .raised st3 e => .error (cleanupOnError close_raises st3) e
    | .exhausted st3 loc => .blocked st3 loc

/-- Token usage estimate. -/
structure Usage where
  input_tokens : Nat
  output_tokens : Nat
  total_tokens : Nat
deriving DecidableEq

/-- The parameters carried by a `ToolUse` content item: the parsed JSON value
of the argument string in the regular case, the raw argument string when the
item is emitted flagged as an error. -/
inductive ParamVal where
  | parsed (v : JVal)
  | raw (s : String)

/-- A `ToolUse` content item of the exchange content model. -/
structure ToolUse where
  id : String
  name : String
  parameters : ParamVal
  is_error : Bool
  error_message : Option String

/-- A `ToolResult` content item of the exchange content model. -/
structure ToolResult where
  tool_use_id : String
  output : String
  is_error : Bool

/-- A content slot of a message: exactly one of `Text`, `ToolUse`,
`ToolResult`. -/
inductive Content where
  | text (t : String)
  | toolUse (u : ToolUse)
  | toolResult (r : ToolResult)

/-- A conversation message: a role and an ordered list of content items. -/
structure Message where
  role : String
  content : List Content

/-- Modelled from the spec: the exchange package (whose message class is not
among the provided sources) exposes `Message.tool_use`, the list of `ToolUse`
content items of a message, per the data model of §3. -/
def Message.tool_use (m : Message) : List ToolUse :=
  m.content.filterMap fun c => match c with | .toolUse u => some u | _ => none

/-- The `ToolResult` content items of a message. -/
def toolResultsOf (m : Message) : List ToolResult :=
  m.content.filterMap fun c => match c with | .toolResult r => some r | _ => none

/-- Characters of the class `[a-zA-Z0-9_-]` (ASCII only, as in the Python
regular expression). -/
def isNameChar (c : Char) : Bool :=
  c.isAlpha || c.isDigit || c = '_' || c = '-'

/-- Anchored match of `[a-zA-Z0-9_-]+` on a character list; the end anchor of
the Python engine also matches just before a single trailing newline, so one
trailing newline is stripped first. -/
def pyMatchNameChars (cs : List Char) : Bool :=
  let t := if cs.getLast? = some '\n' then cs.dropLast else cs
  !t.isEmpty && t.all isNameChar

/-- Python `re.match` against the anchored pattern `[a-zA-Z0-9_-]+` used by
`_response_to_message`. -/
def pyMatchNamePattern (s : String) : Bool :=
  pyMatchNameChars s.toList

/-- Conversion of one entry of the response tool-call list into a `ToolUse`
content item, following `_response_to_message`: an invalid function name or
an argument string rejected by `json.loads` yields an error-flagged item
keeping the raw argument string; otherwise the parameters are the parsed
value. -/
def convert_tool_call (parse : String → Option JVal) (tc : ToolCall) : ToolUse :=
  if pyMatchNamePattern tc.name then
    match parse tc.arguments with
    | some v =>
        { id := tc.id, name := tc.name, parameters := .parsed v
          is_error := false, error_message := none }
    | none =>
        { id := tc.id, name := tc.name, parameters := .raw tc.arguments
          is_error := true
          error_message := some ("Invalid tool parameters for id " ++ tc.id ++ ": " ++ tc.arguments) }
  else
    { id := tc.id, name := tc.name, parameters := .raw tc.arguments
      is_error := true
      error_message := some ("Invalid function name \x27" ++ tc.name ++ "\x27, must match [a-zA-Z0-9_-]+") }

/-- `OpenAiRealtimeProvider._response_to_message`: the text content (when
present and nonempty) followed by one converted `ToolUse` item per tool
call. -/
def response_to_message (parse : String → Option JVal) (response : RTResponse) : Message :=
  let textPart : List Content :=
    match response.content with
    | some t => if t = "" then [] else [Content.text t]
    | none => []
  { role := "assistant"
    content := textPart ++ response.tool_calls.map (fun tc => Content.toolUse (convert_tool_call parse tc)) }

/-- `OpenAiRealtimeProvider.get_usage`: the realtime protocol reports no
token counts, so the estimate is derived from the reply text length (four
characters per token, at least one), falling back to one token each way when
the content is absent or empty (Python truthiness). -/
def get_usage (data : RTResponse) : Usage :=
  match data.content with
  | some s =>
    if s = "" then { input_tokens := 1, output_tokens := 1, total_tokens := 2 }
    else
      let estimated_tokens := max 1 (s.length / 4)
      { input_tokens := estimated_tokens
        output_tokens := estimated_tokens
        total_tokens := estimated_tokens * 2 }
  | none => { input_tokens := 1, output_tokens := 1, total_tokens := 2 }

/-- Does the list end with a message of the given role? -/
def lastRoleIs (r : String) (ms : List Message) : Bool :=
  match ms.getLast? with
  | some m => m.role = r
  | none => false

/-- First phase of `Session.interrupt_reply`: when the last conversation
message is from the user, remove it from both the live conversation and the
committed list (`list.pop` on each; the committed list is seeded with the
user message by `reply`, so it is nonempty whenever this branch runs). -/
def popPhase (messages committed : List Message) : List Message × List Message :=
  if lastRoleIs "user" messages then (messages.dropLast, committed.dropLast)
  else (messages, committed)

/-- The synthetic user message appended by `interrupt_reply`: one error
`ToolResult` per pending tool request of the interrupted assistant
message. -/
def interruptToolMsg (m : Message) : Message :=
  { role := "user"
    content := m.tool_use.map fun tu =>
      Content.toolResult
        { tool_use_id := tu.id
          output := "Interrupted by the user to make a correction"
          is_error := true } }

/-- The synthetic assistant acknowledgement appended by `interrupt_reply`;
its text names the loop variable left over from the result loop, that is the
last pending tool use. -/
def interruptAckMsg (m : Message) : Message :=
  { role := "assistant"
    content := [Content.text ("We interrupted the existing call to " ++
      ((m.tool_use.getLast?).map ToolUse.name).getD "" ++ ". How would you like to proceed?")] }

/-- `Session.interrupt_reply`: pop a pending user message from both lists,
then, when the remaining conversation ends with an assistant message that has
pending tool requests, append the synthetic error results and the assistant
acknowledgement to both the live conversation and the committed list. -/
def interrupt_reply (messages committed : List Message) : List Message × List Message :=
  match popPhase messages committed with
  | (m1, c1) =>
    match m1.getLast? with
    | some m =>
        if m.role = "assistant" && !m.tool_use.isEmpty then
          (m1 ++ [interruptToolMsg m, interruptAckMsg m], c1 ++ [interruptToolMsg m, interruptAckMsg m])
        else (m1, c1)
    | none => (m1, c1)

/-- Is the tool use answered by a `ToolResult` carried by some message of the
list? -/
def answeredIn (u : ToolUse) (ms : List Message) : Bool :=
  ms.any fun m2 => (toolResultsOf m2).any fun r => r.tool_use_id == u.id

/-- Every `ToolUse` entry of the conversation has a matching `ToolResult` in
a strictly later message. -/
def noDangling : List Message → Bool
  | [] => true
  | m :: rest => m.tool_use.all (fun u => answeredIn u rest) && noDangling rest

/-- Every `ToolUse` entry of the conversation, except those of the final
message, has a matching `ToolResult` in a strictly later message. -/
def noDanglingButLast : List Message → Bool
  | [] => true
  | m :: rest => (rest.isEmpty || m.tool_use.all (fun u => answeredIn u rest)) && noDanglingButLast rest

/-- The tool-use payload of a content item, when it is one. -/
def contentToolUse? : Content → Option ToolUse
  | .toolUse u => some u
  | _ => none

/-- C9: usage estimation is a deterministic function of the reply text: with
text content of length L the estimate is `max 1 (L / 4)` tokens each of input
and output and twice that in total; with no text content it is one token each
way and two in total; in every case the total is the sum of the parts. -/
theorem C9_get_usage_estimate (r : RTResponse) :
    (∀ s : String, r.content = some s →
      get_usage r = ⟨max 1 (s.length / 4), max 1 (s.length / 4), 2 * max 1 (s.length / 4)⟩) ∧
    (r.content = none → get_usage r = ⟨1, 1, 2⟩) ∧
    (get_usage r).total_tokens = (get_usage r).input_tokens + (get_usage r).output_tokens := by
  refine ⟨?_, ?_, ?_⟩
  · intro s hs
    simp only [get_usage, hs]
    by_cases h : s = ""
    · subst h
      decide
    · simp only [if_neg h, Usage.mk.injEq]
      exact ⟨trivial, trivial, Nat.mul_comm _ 2⟩
  · intro hs
    simp [get_usage, hs]
  · rcases hr : r.content with _ | s
    · simp [get_usage, hr]
    · by_cases hs : s = ""
      · simp [get_usage, hr, hs]
      · simp [get_usage, hr, hs]
        omega

/-- Witness for C9 at a concrete response carrying a twelve-character
reply. -/
theorem C9_get_usage_estimate_witness :
    (⟨some "hello world!", []⟩ : RTResponse).content = some "hello world!" ∧
    get_usage ⟨some "hello world!", []⟩ = ⟨3, 3, 6⟩ := by
  refine ⟨rfl, ?_⟩
  rw [(C9_get_usage_estimate ⟨some "hello world!", []⟩).1 "hello world!" rfl]
  decide

/-- Filtering the tool-use payloads out of a mapped tool-call list recovers
the converted calls. -/
theorem filterMap_contentToolUse_map (parse : String → Option JVal) (l : List ToolCall) :
    List.filterMap (contentToolUse? ∘ fun tc => Content.toolUse (convert_tool_call parse tc)) l =
      l.map (convert_tool_call parse) := by
  induction l with
  | nil => rfl
  | cons a l ih => simp [List.filterMap_cons, contentToolUse?, ih, Function.comp]

/-- C10: response conversion never raises on tool calls: the converted
message carries exactly one `ToolUse` item per entry of the tool-call list,
in order; an entry whose function name fails the name pattern or whose
argument string is rejected by the JSON decoder yields an error-flagged item
with an explanatory message and the raw argument string as parameters; every
other entry yields a non-error item whose parameters are the parsed value. -/
theorem C10_response_to_message_total (parse : String → Option JVal) (r : RTResponse) :
    ((response_to_message parse r).content.filterMap contentToolUse? =
      r.tool_calls.map (convert_tool_call parse)) ∧
    (∀ tc : ToolCall,
      ((pyMatchNamePattern tc.name = false ∨ parse tc.arguments = none) →
        (convert_tool_call parse tc).is_error = true ∧
        (convert_tool_call parse tc).parameters = .raw tc.arguments ∧
        (convert_tool_call parse tc).error_message ≠ none ∧
        (convert_tool_call parse tc).id = tc.id ∧
        (convert_tool_call parse tc).name = tc.name) ∧
      (∀ v : JVal, pyMatchNamePattern tc.name = true → parse tc.arguments = some v →
        convert_tool_call parse tc =
          { id := tc.id, name := tc.name, parameters := .parsed v
            is_error := false, error_message := none })) := by
  constructor
  · rcases hr : r.content with _ | t
    · simp [response_to_message, hr, List.filterMap_map, filterMap_contentToolUse_map]
    · by_cases ht : t = "" <;>
        simp [response_to_message, hr, ht, List.filterMap_map, contentToolUse?,
          filterMap_contentToolUse_map]
  · intro tc
    constructor
    · intro h
      rcases h with h | h
      · simp [convert_tool_call, h]
      · by_cases hm : pyMatchNamePattern tc.name <;> simp [convert_tool_call, h, hm]
    · intro v hm hp
      simp [convert_tool_call, hm, hp]

/-- A decoder that rejects every string, as `json.loads` does on any of these
inputs. -/
def parse0 : String → Option JVal := fun _ => none

/-- A subprocess oracle whose run succeeds with empty output. -/
def run_ls0 : Except String String := .ok ""

/-- The `on_done` handler never changes the tool-call counter or the
maximum. -/
theorem applyDone_counters (parse : String → Option JVal) (run_ls : Except String String)
    (st : WSState) (loc : LoopLocal) :
    (applyDone parse run_ls st loc).wsState.tool_call_count = st.tool_call_count ∧
    (applyDone parse run_ls st loc).wsState.max_tool_calls = st.max_tool_calls := by
  unfold applyDone
  repeat' split
  all_goals exact ⟨rfl, rfl⟩

/-- The `on_done` handler never returns the terminal `finished` result. -/
theorem applyDone_not_finished (parse : String → Option JVal) (run_ls : Except String String)
    (st : WSState) (loc : LoopLocal) (st2 : WSState) (resp : RTResponse) :
    applyDone parse run_ls st loc ≠ .finished st2 resp := by
  unfold applyDone
  repeat' split
  all_goals intro h
  all_goals exact StepResult.noConfusion h

/-- When the `on_done` handler continues the loop, the in-progress call has
been cleared and appended — possibly error-annotated — to the finished
list. -/
theorem applyDone_next_shape (parse : String → Option JVal) (run_ls : Except String String)
    (st : WSState) (loc : LoopLocal) (c : ToolCall) (st2 : WSState) (loc2 : LoopLocal)
    (hc : loc.current_tool_call = some c)
    (h : applyDone parse run_ls st loc = .next st2 loc2) :
    loc2.current_tool_call = none ∧
    ∃ e : Option String, loc2.tool_calls = loc.tool_calls ++ [{ c with error := e }] := by
  simp only [applyDone, hc] at h
  rcases hp : parse c.arguments with _ | v <;> simp only [hp] at h
  · injection h with h1 h2
    subst h2
    exact ⟨rfl, some ("Invalid JSON arguments: " ++ c.arguments), rfl⟩
  · rcases hin : pyInCommand v with e | b <;> simp only [hin] at h
    · exact StepResult.noConfusion h
    · cases b
      · injection h with h1 h2
        subst h2
        exact ⟨rfl, c.error, rfl⟩
      · rcases hix : pyIndexCommand v with e | cv <;> simp only [hix] at h
        · exact StepResult.noConfusion h
        · by_cases hcv : pyEqLs cv = true
          · rw [if_pos hcv] at h
            injection h with h1 h2
            subst h2
            exact ⟨rfl, c.error, rfl⟩
          · rw [if_neg hcv] at h
            injection h with h1 h2
            subst h2
            exact ⟨rfl, c.error, rfl⟩

/-- Processing one frame preserves the bound of the tool-call counter by the
maximum. -/
theorem processEvent_count_le (parse : String → Option JVal) (run_ls : Except String String)
    (timeout start : Nat) (st : WSState) (loc : LoopLocal) (t : Nat) (out : RecvOutcome)
    (h : st.tool_call_count ≤ st.max_tool_calls) :
    (processEvent parse run_ls timeout start st loc t out).wsState.tool_call_count ≤
      (processEvent parse run_ls timeout start st loc t out).wsState.max_tool_calls := by
  unfold processEvent
  by_cases hT : timeout < t - start
  · rw [if_pos hT]
    exact h
  · rw [if_neg hT]
    rcases out with ev | _ | _
    · dsimp only
      by_cases hL : st.max_tool_calls ≤ st.tool_call_count
      · rw [if_pos hL]
        exact h
      · rw [if_neg hL]
        have hlt : st.tool_call_count < st.max_tool_calls := Nat.lt_of_not_le hL
        cases ev with
        | errorEvent payload => exact h
        | textDelta d => exact h
        | functionCallDelta tid fn d =>
          rcases hcc : loc.current_tool_call with _ | c <;> simp only [hcc]
          · exact hlt
          · exact h
        | functionCallDone =>
          have hcnt := applyDone_counters parse run_ls st loc
          rw [hcnt.1, hcnt.2]
          exact h
        | responseDone => exact h
        | otherEvent k => exact h
    · exact h
    · exact h

/-- Running the loop preserves the bound of the tool-call counter by the
maximum. -/
theorem runLoop_count_le (parse : String → Option JVal) (run_ls : Except String String)
    (timeout start : Nat) :
    ∀ (events : List (Nat × RecvOutcome)) (st : WSState) (loc : LoopLocal),
      st.tool_call_count ≤ st.max_tool_calls →
      (runLoop parse run_ls timeout start st loc events).wsState.tool_call_count ≤
        (runLoop parse run_ls timeout start st loc events).wsState.max_tool_calls
     := by
  intro events
  induction events with
  | nil => intro st loc h; exact h
  | cons head rest ih =>
    intro st loc h
    obtain ⟨t, out⟩ := head
    have hstep := processEvent_count_le parse run_ls timeout start st loc t out h
    unfold runLoop
    rcases hp : processEvent parse run_ls timeout start st loc t out with
        ⟨st2, loc2⟩ | ⟨st2, resp⟩ | ⟨st2, e⟩ <;> rw [hp] at hstep
    · exact ih st2 loc2 hstep
    · exact hstep
    · exact hstep

/-- C1: tool-call budget invariant: once the counter has reached the maximum,
processing any further received event raises the limit error (no call can be
silently dropped); below the maximum, a `function_call.delta` arriving with no
call in progress increments the counter by exactly one, every other step
leaves it unchanged, and along any run the counter never exceeds the
maximum. -/
theorem C1_tool_call_budget (parse : String → Option JVal) (run_ls : Except String String)
    (timeout start : Nat) (st : WSState) (loc : LoopLocal) (t : Nat) (ev : RTEvent)
    (events : List (Nat × RecvOutcome)) :
    (st.max_tool_calls ≤ st.tool_call_count → t - start ≤ timeout →
      processEvent parse run_ls timeout start st loc t (.ok ev) =
        .raised st (.limitExceeded st.max_tool_calls)) ∧
    (st.tool_call_count < st.max_tool_calls → t - start ≤ timeout →
      ∀ tid fn d, ev = .functionCallDelta tid fn d → loc.current_tool_call = none →
        (processEvent parse run_ls timeout start st loc t (.ok ev)).wsState.tool_call_count =
          st.tool_call_count + 1) ∧
    (st.tool_call_count < st.max_tool_calls →
      (∀ tid fn d, ev = .functionCallDelta tid fn d → loc.current_tool_call ≠ none) →
      (processEvent parse run_ls timeout start st loc t (.ok ev)).wsState.tool_call_count =
        st.tool_call_count) ∧
    (st.tool_call_count ≤ st.max_tool_calls →
      (runLoop parse run_ls timeout start st loc events).wsState.tool_call_count ≤
        (runLoop parse run_ls timeout start st loc events).wsState.max_tool_calls) := by
  refine ⟨?_, ?_, ?_, ?_⟩
  · intro hL hT
    simp only [processEvent, if_neg (Nat.not_lt.mpr hT), if_pos hL]
  · intro hlt hT tid fn d hev hcc
    subst hev
    simp only [processEvent, if_neg (Nat.not_lt.mpr hT), if_neg (Nat.not_le.mpr hlt), hcc]
    rfl
  · intro hlt hno
    by_cases hT : timeout < t - start
    · simp only [processEvent, if_pos hT]
      rfl
    · simp only [processEvent, if_neg hT, if_neg (Nat.not_le.mpr hlt)]
      cases ev with
      | errorEvent payload => rfl
      | textDelta d => rfl
      | functionCallDelta tid fn d =>
        rcases hcc : loc.current_tool_call with _ | c
        · exact absurd hcc (hno tid fn d rfl)
        · simp only [hcc]
          rfl
      | functionCallDone => exact (applyDone_counters parse run_ls st loc).1
      | responseDone => rfl
      | otherEvent k => rfl
  · intro h
    exact runLoop_count_le parse run_ls timeout start events st loc h

/-- Witness for C1: at the limit, a timely delta raises the limit error; from
a fresh session a first delta moves the counter to one; and a short run stays
within the budget. -/
theorem C1_tool_call_budget_witness :
    (processEvent parse0 run_ls0 60 0 ⟨some true, true, 10, 10, none, none⟩ ⟨"", [], none⟩ 0
        (.ok (.functionCallDelta (some "x") none "y")) =
      .raised ⟨some true, true, 10, 10, none, none⟩ (.limitExceeded 10)) ∧
    ((processEvent parse0 run_ls0 60 0 RealtimeWebSocket.init ⟨"", [], none⟩ 0
        (.ok (.functionCallDelta (some "x") none "y"))).wsState.tool_call_count = 1) ∧
    ((runLoop parse0 run_ls0 60 0 RealtimeWebSocket.init ⟨"", [], none⟩
        [(0, .ok (.functionCallDelta (some "x") none "y")), (0, .ok .functionCallDone)]).wsState.tool_call_count ≤
      (runLoop parse0 run_ls0 60 0 RealtimeWebSocket.init ⟨"", [], none⟩
        [(0, .ok (.functionCallDelta (some "x") none "y")), (0, .ok .functionCallDone)]).wsState.max_tool_calls) := by
  refine ⟨?_, ?_, ?_⟩
  · exact (C1_tool_call_budget parse0 run_ls0 60 0 ⟨some true, true, 10, 10, none, none⟩
      ⟨"", [], none⟩ 0 (.functionCallDelta (some "x") none "y") []).1 (by decide) (by decide)
  · exact (C1_tool_call_budget parse0 run_ls0 60 0 RealtimeWebSocket.init
      ⟨"", [], none⟩ 0 (.functionCallDelta (some "x") none "y") []).2.1 (by decide) (by decide)
      (some "x") none "y" rfl rfl
  · exact (C1_tool_call_budget parse0 run_ls0 60 0 RealtimeWebSocket.init
      ⟨"", [], none⟩ 0 (.functionCallDelta (some "x") none "y")
      [(0, .ok (.functionCallDelta (some "x") none "y")), (0, .ok .functionCallDone)]).2.2.2 (by decide)

/-- C5 (amended): a `function_call.delta` arriving while a call is open
appends its fragment to the open call's argument buffer whatever call id the
event carries; the id is never inspected and no error is raised. -/
theorem C5_delta_id_ignored (parse : String → Option JVal) (run_ls : Except String String)
    (timeout start t : Nat) (st : WSState) (loc : LoopLocal) (c : ToolCall)
    (tid fn : Option String) (d : String)
    (hc : loc.current_tool_call = some c) (ht : t - start ≤ timeout)
    (hl : st.tool_call_count < st.max_tool_calls) :
    processEvent parse run_ls timeout start st loc t (.ok (.functionCallDelta tid fn d)) =
      .next st { loc with current_tool_call := some { c with arguments := c.arguments ++ d } } := by
  simp only [processEvent, if_neg (Nat.not_lt.mpr ht), if_neg (Nat.not_le.mpr hl), hc]

/-- Witness for C5's amended theorem: a delta carrying the foreign id `zz` is
appended to the call opened under id `a`. -/
theorem C5_delta_id_ignored_witness :
    processEvent parse0 run_ls0 60 0 ⟨some true, true, 1, 10, none, none⟩
        ⟨"", [], some ⟨"a", "shell", "x", none⟩⟩ 5 (.ok (.functionCallDelta (some "zz") none "y")) =
      .next ⟨some true, true, 1, 10, none, none⟩ ⟨"", [], some ⟨"a", "shell", "xy", none⟩⟩ := by
  have h := C5_delta_id_ignored parse0 run_ls0 60 0 5 ⟨some true, true, 1, 10, none, none⟩
    ⟨"", [], some ⟨"a", "shell", "x", none⟩⟩ ⟨"a", "shell", "x", none⟩ (some "zz") none "y"
    rfl (by decide) (by decide)
  exact h

/-- C5 counterexample: a delta whose `tool_call_id` differs from the open
call's id is merged into the open call's buffer and no error of any kind is
raised — the claimed protocol error does not happen. -/
theorem C5_counterexample :
    (processEvent parse0 run_ls0 60 0 ⟨some true, true, 1, 10, none, none⟩
        ⟨"", [], some ⟨"a", "shell", "x", none⟩⟩ 0 (.ok (.functionCallDelta (some "b") none "y")) =
      .next ⟨some true, true, 1, 10, none, none⟩ ⟨"", [], some ⟨"a", "shell", "xy", none⟩⟩) ∧
    ∀ (st2 : WSState) (e : RTError),
      processEvent parse0 run_ls0 60 0 ⟨some true, true, 1, 10, none, none⟩
        ⟨"", [], some ⟨"a", "shell", "x", none⟩⟩ 0 (.ok (.functionCallDelta (some "b") none "y")) ≠
      .raised st2 e := by
  have heq : processEvent parse0 run_ls0 60 0 ⟨some true, true, 1, 10, none, none⟩
      ⟨"", [], some ⟨"a", "shell", "x", none⟩⟩ 0 (.ok (.functionCallDelta (some "b") none "y")) =
      .next ⟨some true, true, 1, 10, none, none⟩ ⟨"", [], some ⟨"a", "shell", "xy", none⟩⟩ := by
    decide
  refine ⟨heq, fun st2 e h => ?_⟩
  rw [heq] at h
  exact StepResult.noConfusion h

/-- C6: on `function_call.done` the buffer is validated as JSON; when the
decoder rejects it, the completed call is still emitted with the parse
diagnostic attached; and whenever the handler continues the loop — valid or
invalid buffer — the in-progress slot has been cleared and the call emitted
exactly once. -/
theorem C6_done_validation (parse : String → Option JVal) (run_ls : Except String String)
    (timeout start t : Nat) (st : WSState) (loc : LoopLocal) (c : ToolCall)
    (hc : loc.current_tool_call = some c) (ht : t - start ≤ timeout)
    (hl : st.tool_call_count < st.max_tool_calls) :
    (parse c.arguments = none →
      processEvent parse run_ls timeout start st loc t (.ok .functionCallDone) =
        .next st
          { loc with
            tool_calls := loc.tool_calls ++
              [{ c with error := some ("Invalid JSON arguments: " ++ c.arguments) }]
            current_tool_call := none }) ∧
    (∀ (st2 : WSState) (loc2 : LoopLocal),
      processEvent parse run_ls timeout start st loc t (.ok .functionCallDone) = .next st2 loc2 →
      loc2.current_tool_call = none ∧
      ∃ e : Option String, loc2.tool_calls = loc.tool_calls ++ [{ c with error := e }]) := by
  constructor
  · intro hp
    simp only [processEvent, if_neg (Nat.not_lt.mpr ht), if_neg (Nat.not_le.mpr hl),
      applyDone, hc, hp]
  · intro st2 loc2 hstep
    simp only [processEvent, if_neg (Nat.not_lt.mpr ht), if_neg (Nat.not_le.mpr hl)] at hstep
    exact applyDone_next_shape parse run_ls st loc c st2 loc2 hc hstep

/-- Witness for C6 at a concrete rejected buffer: the call is emitted with
the diagnostic and the slot is cleared. -/
theorem C6_done_validation_witness :
    (processEvent parse0 run_ls0 60 0 ⟨some true, true, 1, 10, none, none⟩
        ⟨"", [], some ⟨"a", "shell", "oops", none⟩⟩ 0 (.ok .functionCallDone) =
      .next ⟨some true, true, 1, 10, none, none⟩
        ⟨"", [⟨"a", "shell", "oops", some "Invalid JSON arguments: oops"⟩], none⟩) ∧
    ((⟨"", [⟨"a", "shell", "oops", some "Invalid JSON arguments: oops"⟩], none⟩ : LoopLocal).current_tool_call = none) := by
  constructor
  · have h := (C6_done_validation parse0 run_ls0 60 0 0 ⟨some true, true, 1, 10, none, none⟩
      ⟨"", [], some ⟨"a", "shell", "oops", none⟩⟩ ⟨"a", "shell", "oops", none⟩
      rfl (by decide) (by decide)).1 rfl
    exact h
  · rfl

/-- Concatenation of a list of fragments in arrival order. -/
def concatAll : List String → String
  | [] => ""
  | s :: rest => s ++ concatAll rest

/-- A trace of `function_call.delta` frames for one call, all received within
the window (the clock reads `start` at each iteration). -/
def deltaEventsAt (start : Nat) (tid fn : Option String) (frs : List String) :
    List (Nat × RecvOutcome) :=
  frs.map (fun f => (start, .ok (.functionCallDelta tid fn f)))

/-- Delta frames arriving while a call is open append their fragments, in
order, to the open call's argument buffer. -/
theorem runLoop_deltas_open (parse : String → Option JVal) (run_ls : Except String String)
    (timeout start : Nat) (tid fn : Option String) :
    ∀ (frs : List String) (st : WSState) (text : String) (calls : List ToolCall) (c : ToolCall),
      st.tool_call_count < st.max_tool_calls →
      runLoop parse run_ls timeout start st ⟨text, calls, some c⟩ (deltaEventsAt start tid fn frs) =
        .exhausted st ⟨text, calls, some { c with arguments := c.arguments ++ concatAll frs }⟩ := by
  intro frs
  induction frs with
  | nil =>
    intro st text calls c h
    simp [deltaEventsAt, runLoop, concatAll, String.append_empty]
  | cons f rest ih =>
    intro st text calls c h
    have hstep : processEvent parse run_ls timeout start st ⟨text, calls, some c⟩ start
        (.ok (.functionCallDelta tid fn f)) =
        .next st ⟨text, calls, some { c with arguments := c.arguments ++ f }⟩ := by
      simp only [processEvent, Nat.sub_self]
      rw [if_neg (Nat.not_lt_zero timeout), if_neg (Nat.not_le.mpr h)]
    simp only [deltaEventsAt, List.map_cons]
    unfold runLoop
    simp only [hstep]
    have h2 := ih st text calls { c with arguments := c.arguments ++ f } h
    simp only [deltaEventsAt] at h2
    rw [h2, String.append_assoc]
    rfl

/-- One unfolding of the receive loop on a nonempty trace. -/
theorem runLoop_cons (parse : String → Option JVal) (run_ls : Except String String)
    (timeout start : Nat) (st : WSState) (loc : LoopLocal) (t : Nat) (out : RecvOutcome)
    (rest : List (Nat × RecvOutcome)) :
    runLoop parse run_ls timeout start st loc ((t, out) :: rest) =
      match processEvent parse run_ls timeout start st loc t out with
      | .next st2 loc2 => runLoop parse run_ls timeout start st2 loc2 rest
      | .finished st2 resp => .finished st2 resp
      | .raised st2 e => .raised st2 e := rfl

/-- Running the loop over a concatenated trace continues from the state an
exhausted prefix reached. -/
theorem runLoop_append (parse : String → Option JVal) (run_ls : Except String String)
    (timeout start : Nat) :
    ∀ (l1 l2 : List (Nat × RecvOutcome)) (st : WSState) (loc : LoopLocal)
      (st2 : WSState) (loc2 : LoopLocal),
      runLoop parse run_ls timeout start st loc l1 = .exhausted st2 loc2 →
      runLoop parse run_ls timeout start st loc (l1 ++ l2) =
        runLoop parse run_ls timeout start st2 loc2 l2 := by
  intro l1
  induction l1 with
  | nil =>
    intro l2 st loc st2 loc2 h
    rw [show runLoop parse run_ls timeout start st loc [] = .exhausted st loc from rfl] at h
    injection h with h1 h2
    subst h1
    subst h2
    rfl
  | cons head rest ih =>
    intro l2 st loc st2 loc2 h
    obtain ⟨t, out⟩ := head
    rw [runLoop_cons] at h
    show runLoop parse run_ls timeout start st loc ((t, out) :: (rest ++ l2)) = _
    rw [runLoop_cons]
    rcases hp : processEvent parse run_ls timeout start st loc t out with
        ⟨st3, loc3⟩ | ⟨st3, resp⟩ | ⟨st3, e⟩ <;> rw [hp] at h
    · exact ih l2 st3 loc3 st2 loc2 h
    · exact RunResult.noConfusion h
    · exact RunResult.noConfusion h

/-- C4: fragment concatenation: for a well-formed trace of delta fragments of
a single call followed by the matching done, the open call's buffer after the
deltas is the ordered concatenation of the fragments; whenever the run
completes the call, the single completed tool call carries exactly that
concatenation as its argument string (with the in-progress slot cleared); and
when the decoder rejects the concatenation the completed call is emitted
error-flagged with that same argument string. -/
theorem C4_fragment_concat (parse : String → Option JVal) (run_ls : Except String String)
    (timeout start : Nat) (st : WSState) (tid fn : Option String)
    (f : String) (rest : List String)
    (h : st.tool_call_count + 1 < st.max_tool_calls) :
    (runLoop parse run_ls timeout start st ⟨"", [], none⟩ (deltaEventsAt start tid fn (f :: rest)) =
      .exhausted { st with tool_call_count := st.tool_call_count + 1 }
        ⟨"", [], some ⟨tid.getD "call_0", fn.getD "shell", concatAll (f :: rest), none⟩⟩) ∧
    (∀ (st3 : WSState) (loc3 : LoopLocal),
      runLoop parse run_ls timeout start st ⟨"", [], none⟩
          (deltaEventsAt start tid fn (f :: rest) ++ [(start, .ok .functionCallDone)]) =
        .exhausted st3 loc3 →
      ∃ tc : ToolCall, loc3.tool_calls = [tc] ∧ tc.arguments = concatAll (f :: rest) ∧
        loc3.current_tool_call = none) ∧
    (parse (concatAll (f :: rest)) = none →
      runLoop parse run_ls timeout start st ⟨"", [], none⟩
          (deltaEventsAt start tid fn (f :: rest) ++ [(start, .ok .functionCallDone)]) =
        .exhausted { st with tool_call_count := st.tool_call_count + 1 }
          ⟨"", [⟨tid.getD "call_0", fn.getD "shell", concatAll (f :: rest),
                 some ("Invalid JSON arguments: " ++ concatAll (f :: rest))⟩], none⟩) := by
  have h0 : st.tool_call_count < st.max_tool_calls := Nat.lt_of_succ_lt h
  have hlim : ¬ (st.max_tool_calls ≤ st.tool_call_count + 1) := Nat.not_le.mpr h
  have hstep : processEvent parse run_ls timeout start st ⟨"", [], none⟩ start
      (.ok (.functionCallDelta tid fn f)) =
      .next { st with tool_call_count := st.tool_call_count + 1 }
        ⟨"", [], some ⟨tid.getD "call_0", fn.getD "shell", f, none⟩⟩ := by
    simp only [processEvent, Nat.sub_self]
    rw [if_neg (Nat.not_lt_zero timeout), if_neg (Nat.not_le.mpr h0)]
    rfl
  have hfull : runLoop parse run_ls timeout start st ⟨"", [], none⟩
      (deltaEventsAt start tid fn (f :: rest)) =
      .exhausted { st with tool_call_count := st.tool_call_count + 1 }
        ⟨"", [], some ⟨tid.getD "call_0", fn.getD "shell", concatAll (f :: rest), none⟩⟩ := by
    simp only [deltaEventsAt, List.map_cons]
    rw [runLoop_cons]
    simp only [hstep]
    have h2 := runLoop_deltas_open parse run_ls timeout start tid fn rest
      { st with tool_call_count := st.tool_call_count + 1 } "" []
      ⟨tid.getD "call_0", fn.getD "shell", f, none⟩ h
    simp only [deltaEventsAt] at h2
    rw [h2]
    rfl
  refine ⟨hfull, ?_, ?_⟩
  · intro st3 loc3 hex
    rw [runLoop_append parse run_ls timeout start _ _ _ _ _ _ hfull] at hex
    rw [runLoop_cons] at hex
    rcases hstep2 : processEvent parse run_ls timeout start
        { st with tool_call_count := st.tool_call_count + 1 }
        ⟨"", [], some ⟨tid.getD "call_0", fn.getD "shell", concatAll (f :: rest), none⟩⟩ start
        (.ok .functionCallDone) with ⟨st4, loc4⟩ | ⟨st4, resp⟩ | ⟨st4, e⟩ <;> simp only [hstep2] at hex
    · rw [show ∀ (s : WSState) (l : LoopLocal),
          runLoop parse run_ls timeout start s l [] = .exhausted s l from fun _ _ => rfl] at hex
      injection hex with h1 h2
      subst h1
      subst h2
      have hAD : applyDone parse run_ls { st with tool_call_count := st.tool_call_count + 1 }
          ⟨"", [], some ⟨tid.getD "call_0", fn.getD "shell", concatAll (f :: rest), none⟩⟩ =
          .next st4 loc4 := by
        have h5 := hstep2
        simp only [processEvent, Nat.sub_self] at h5
        rw [if_neg (Nat.not_lt_zero timeout), if_neg hlim] at h5
        exact h5
      obtain ⟨hclear, e, hlist⟩ := applyDone_next_shape parse run_ls _ _
        ⟨tid.getD "call_0", fn.getD "shell", concatAll (f :: rest), none⟩ st4 loc4 rfl hAD
      exact ⟨_, by simpa using hlist, rfl, hclear⟩
    · exact RunResult.noConfusion hex
    · exact RunResult.noConfusion hex
  · intro hp
    rw [runLoop_append parse run_ls timeout start _ _ _ _ _ _ hfull]
    rw [runLoop_cons]
    have hstep3 : processEvent parse run_ls timeout start
        { st with tool_call_count := st.tool_call_count + 1 }
        ⟨"", [], some ⟨tid.getD "call_0", fn.getD "shell", concatAll (f :: rest), none⟩⟩ start
        (.ok .functionCallDone) =
        .next { st with tool_call_count := st.tool_call_count + 1 }
          ⟨"", [⟨tid.getD "call_0", fn.getD "shell", concatAll (f :: rest),
                 some ("Invalid JSON arguments: " ++ concatAll (f :: rest))⟩], none⟩ := by
      simp only [processEvent, Nat.sub_self]
      rw [if_neg (Nat.not_lt_zero timeout), if_neg hlim]
      show applyDone parse run_ls _ _ = _
      simp only [applyDone, hp]
      rfl
    rw [hstep3]
    rfl

/-- Witness for C4 with two fragments and a rejecting decoder: the completed
call carries the concatenated arguments and the diagnostic. -/
theorem C4_fragment_concat_witness :
    runLoop parse0 run_ls0 60 0 ⟨some true, true, 0, 10, none, none⟩ ⟨"", [], none⟩
        (deltaEventsAt 0 (some "id1") (some "shell") ["ab", "cd"] ++ [(0, .ok .functionCallDone)]) =
      .exhausted ⟨some true, true, 1, 10, none, none⟩
        ⟨"", [⟨"id1", "shell", "abcd", some "Invalid JSON arguments: abcd"⟩], none⟩ := by
  have h := (C4_fragment_concat parse0 run_ls0 60 0 ⟨some true, true, 0, 10, none, none⟩
    (some "id1") (some "shell") "ab" ["cd"] (by decide)).2.2 rfl
  exact h

/-- A decoder fixed at the single input whose decoded value is the dictionary
mapping `command` to `pwd`, agreeing with `json.loads` there. -/
def parseC8 : String → Option JVal :=
  fun s => if s = "\x7b\"command\": \"pwd\"\x7d" then some (.jobj [("command", .jstr "pwd")]) else none

/-- A decoder fixed at the single input whose decoded value is the dictionary
mapping `command` to `ls`, agreeing with `json.loads` there. -/
def parseC8ls : String → Option JVal :=
  fun s => if s = "\x7b\"command\": \"ls\"\x7d" then some (.jobj [("command", .jstr "ls")]) else none

/-- C8 (amended): on completion of a call whose arguments decode to a
dictionary, a subprocess is run only when the `command` entry is exactly the
string `ls` — `subprocess.check_output` with no timeout — and its decoded
output (or the exception text) is stored as the current tool result; any
other command value, and a missing `command` key, store nothing; in every
case the call id is recorded and the call appended. -/
theorem C8_executor_ls_only (parse : String → Option JVal) (run_ls : Except String String)
    (timeout start t : Nat) (st : WSState) (loc : LoopLocal) (c : ToolCall)
    (kvs : List (String × JVal))
    (hc : loc.current_tool_call = some c) (ht : t - start ≤ timeout)
    (hl : st.tool_call_count < st.max_tool_calls)
    (hp : parse c.arguments = some (.jobj kvs)) :
    (∀ kv : String × JVal, kvs.find? (fun kv2 => kv2.1 = "command") = some kv →
      kv.2 = .jstr "ls" →
      processEvent parse run_ls timeout start st loc t (.ok .functionCallDone) =
        .next { st with current_tool_id := some c.id,
                        current_tool_result := some (runLsOutput run_ls) }
          { loc with tool_calls := loc.tool_calls ++ [c], current_tool_call := none }) ∧
    (∀ kv : String × JVal, kvs.find? (fun kv2 => kv2.1 = "command") = some kv →
      pyEqLs kv.2 = false →
      processEvent parse run_ls timeout start st loc t (.ok .functionCallDone) =
        .next { st with current_tool_id := some c.id }
          { loc with tool_calls := loc.tool_calls ++ [c], current_tool_call := none }) ∧
    (kvs.find? (fun kv2 => kv2.1 = "command") = none →
      processEvent parse run_ls timeout start st loc t (.ok .functionCallDone) =
        .next { st with current_tool_id := some c.id }
          { loc with tool_calls := loc.tool_calls ++ [c], current_tool_call := none }) := by
  have hT := Nat.not_lt.mpr ht
  have hL := Nat.not_le.mpr hl
  refine ⟨?_, ?_, ?_⟩
  · intro kv hfind hkv
    have hany : kvs.any (fun kv2 => kv2.1 = "command") = true := by
      apply List.any_eq_true.mpr
      refine ⟨kv, List.mem_of_find?_eq_some hfind, ?_⟩
      have hpkv := List.find?_some hfind
      exact hpkv
    simp only [processEvent, if_neg hT, if_neg hL, applyDone, hc, hp, pyInCommand,
      pyIndexCommand, hany, hfind]
    rw [if_pos (by rw [hkv]; rfl : pyEqLs kv.2 = true)]
  · intro kv hfind hkv
    have hany : kvs.any (fun kv2 => kv2.1 = "command") = true := by
      apply List.any_eq_true.mpr
      refine ⟨kv, List.mem_of_find?_eq_some hfind, ?_⟩
      have hpkv := List.find?_some hfind
      exact hpkv
    simp only [processEvent, if_neg hT, if_neg hL, applyDone, hc, hp, pyInCommand,
      pyIndexCommand, hany, hfind]
    rw [if_neg (by rw [hkv]; exact Bool.false_ne_true : ¬ pyEqLs kv.2 = true)]
  · intro hfind
    have hany : kvs.any (fun kv2 => kv2.1 = "command") = false := by
      rw [Bool.eq_false_iff]
      intro hcontra
      rcases List.any_eq_true.mp hcontra with ⟨x, hx, hpx⟩
      exact (List.find?_eq_none.mp hfind x hx) hpx
    simp only [processEvent, if_neg hT, if_neg hL, applyDone, hc, hp, pyInCommand,
      pyIndexCommand, hany, hfind]

/-- Witness for C8's amended theorem: a completed call with arguments
decoding to the dictionary mapping `command` to `ls` stores the subprocess
output. -/
theorem C8_executor_ls_only_witness :
    processEvent parseC8ls (.ok "file1 file2") 60 0 ⟨some true, true, 1, 10, none, none⟩
        ⟨"", [], some ⟨"a", "shell", "\x7b\"command\": \"ls\"\x7d", none⟩⟩ 0 (.ok .functionCallDone) =
      .next ⟨some true, true, 1, 10, some "file1 file2", some "a"⟩
        ⟨"", [⟨"a", "shell", "\x7b\"command\": \"ls\"\x7d", none⟩], none⟩ := by
  have h := (C8_executor_ls_only parseC8ls (.ok "file1 file2") 60 0 0
    ⟨some true, true, 1, 10, none, none⟩
    ⟨"", [], some ⟨"a", "shell", "\x7b\"command\": \"ls\"\x7d", none⟩⟩
    ⟨"a", "shell", "\x7b\"command\": \"ls\"\x7d", none⟩
    [("command", .jstr "ls")] rfl (by decide) (by decide) rfl).1
    ("command", .jstr "ls") rfl rfl
  exact h

/-- C8 counterexample: a completed call whose decoded arguments carry the
command `pwd` runs nothing — the stored tool result stays empty — refuting
the claim that every command field is executed (there is also no timeout, no
stderr capture and no error flag anywhere on this path). -/
theorem C8_counterexample :
    (processEvent parseC8 (.ok "would-be-output") 60 0 ⟨some true, true, 1, 10, none, none⟩
        ⟨"", [], some ⟨"a", "shell", "\x7b\"command\": \"pwd\"\x7d", none⟩⟩ 0 (.ok .functionCallDone) =
      .next ⟨some true, true, 1, 10, none, some "a"⟩
        ⟨"", [⟨"a", "shell", "\x7b\"command\": \"pwd\"\x7d", none⟩], none⟩) ∧
    (⟨some true, true, 1, 10, none, some "a"⟩ : WSState).current_tool_result = none := by
  exact ⟨by decide, rfl⟩

/-- C2 (amended): every error `send_message` propagates has passed through
the cleanup clause, after which the channel is never left connected; but the
cleanup clause resets nothing else: the tool-call counter, the
first-connection flag and the stored tool result survive it unchanged, its
outcome is independent of whether the close call itself raises (the raise is
swallowed), and it is idempotent. -/
theorem C2_error_cleanup (parse : String → Option JVal) (run_ls : Except String String)
    (connect_ok close_raises : Bool) (timeout start : Nat)
    (st : WSState) (events : List (Nat × RecvOutcome)) :
    (∀ (st2 : WSState) (e : RTError),
      send_message parse run_ls connect_ok close_raises timeout start st events = .error st2 e →
      ∃ s : WSState, st2 = cleanupOnError close_raises s) ∧
    (∀ s : WSState,
      (cleanupOnError close_raises s).tool_call_count = s.tool_call_count ∧
      (cleanupOnError close_raises s).is_first_connection = s.is_first_connection ∧
      (cleanupOnError close_raises s).current_tool_result = s.current_tool_result ∧
      (cleanupOnError close_raises s).ws ≠ some true ∧
      cleanupOnError close_raises (cleanupOnError close_raises s) = cleanupOnError close_raises s ∧
      cleanupOnError true s = cleanupOnError false s) := by
  constructor
  · intro st2 e
    unfold send_message
    rcases hws : st.ws with _ | b
    · by_cases hco : connect_ok = true
      · rw [if_pos hco]
        unfold send_message.send_message_rest
        rcases hrun : runLoop parse run_ls timeout start (flushToolResult { st with ws := some true })
            ⟨"", [], none⟩ events with ⟨st3, resp⟩ | ⟨st3, e3⟩ | ⟨st3, loc3⟩ <;> intro hh
        · exact SendResult.noConfusion hh
        · injection hh with h1 h2
          exact ⟨st3, h1.symm⟩
        · exact SendResult.noConfusion hh
      · rw [if_neg hco]
        intro hh
        injection hh with h1 h2
        exact ⟨st, h1.symm⟩
    · cases b
      · by_cases hco : connect_ok = true
        · rw [if_pos hco]
          unfold send_message.send_message_rest
          rcases hrun : runLoop parse run_ls timeout start (flushToolResult { st with ws := some true })
              ⟨"", [], none⟩ events with ⟨st3, resp⟩ | ⟨st3, e3⟩ | ⟨st3, loc3⟩ <;> intro hh
          · exact SendResult.noConfusion hh
          · injection hh with h1 h2
            exact ⟨st3, h1.symm⟩
          · exact SendResult.noConfusion hh
        · rw [if_neg hco]
          intro hh
          injection hh with h1 h2
          exact ⟨st, h1.symm⟩
      · unfold send_message.send_message_rest
        rcases hrun : runLoop parse run_ls timeout start (flushToolResult st)
            ⟨"", [], none⟩ events with ⟨st3, resp⟩ | ⟨st3, e3⟩ | ⟨st3, loc3⟩ <;> intro hh
        · exact SendResult.noConfusion hh
        · injection hh with h1 h2
          exact ⟨st3, h1.symm⟩
        · exact SendResult.noConfusion hh
  · intro s
    rcases hws : s.ws with _ | b
    · simp [cleanupOnError, hws]
    · cases b
      · simp [cleanupOnError, hws]
      · simp [cleanupOnError, hws]

/-- Witness for C2's amended theorem at a concrete erroring run: the
propagated state is a cleanup image, and cleanup preserves a nonzero
tool-call counter. -/
theorem C2_error_cleanup_witness :
    (∃ s : WSState, (⟨none, true, 2, 10, none, none⟩ : WSState) = cleanupOnError false s) ∧
    (cleanupOnError false ⟨some true, true, 2, 10, none, none⟩).tool_call_count = 2 := by
  have h := C2_error_cleanup parse0 run_ls0 true false 60 0 ⟨some true, true, 2, 10, none, none⟩
    [(0, .ok (.errorEvent "bang"))]
  exact ⟨h.1 ⟨none, true, 2, 10, none, none⟩ (.apiError "bang") (by decide),
    (h.2 ⟨some true, true, 2, 10, none, none⟩).1⟩

/-- C2 counterexample: an error propagated out of `send_message` leaves the
tool-call counter at its pre-error value three — it is not reset to zero, so
the claimed unconditional counter reset does not happen. -/
theorem C2_counterexample :
    (send_message parse0 run_ls0 true false 60 0 ⟨some true, true, 3, 10, none, none⟩
        [(0, .ok (.errorEvent "boom"))] =
      .error ⟨none, true, 3, 10, none, none⟩ (.apiError "boom")) ∧
    (⟨none, true, 3, 10, none, none⟩ : WSState).tool_call_count ≠ 0 := by
  exact ⟨by decide, by decide⟩

/-- C7 (amended): when the event-loop clock exceeds the receive window the
engine raises `TimeoutError` at once — whatever text and tool calls the loop
locals had accumulated are discarded, not returned — and `send_message`
propagates the timeout error after running the cleanup clause. -/
theorem C7_timeout_raises (parse : String → Option JVal) (run_ls : Except String String)
    (connect_ok close_raises : Bool) (timeout start t : Nat)
    (st : WSState) (out : RecvOutcome) (rest : List (Nat × RecvOutcome))
    (hws : st.ws = some true) (hlate : timeout < t - start) :
    (∀ (st0 : WSState) (loc0 : LoopLocal),
      processEvent parse run_ls timeout start st0 loc0 t out = .raised st0 .timeoutExceeded) ∧
    send_message parse run_ls connect_ok close_raises timeout start st ((t, out) :: rest) =
      .error (cleanupOnError close_raises (flushToolResult st)) .timeoutExceeded := by
  have hstep : ∀ (st0 : WSState) (loc0 : LoopLocal),
      processEvent parse run_ls timeout start st0 loc0 t out = .raised st0 .timeoutExceeded := by
    intro st0 loc0
    simp only [processEvent, if_pos hlate]
  refine ⟨hstep, ?_⟩
  unfold send_message
  rw [hws]
  show send_message.send_message_rest parse run_ls close_raises timeout start st ((t, out) :: rest) = _
  unfold send_message.send_message_rest
  rw [runLoop_cons, hstep (flushToolResult st) ⟨"", [], none⟩]

/-- Witness for C7's amended theorem: with a sixty-second window, a frame
arriving at clock sixty-one raises the timeout error through cleanup. -/
theorem C7_timeout_raises_witness :
    send_message parse0 run_ls0 true false 60 0 ⟨some true, true, 0, 10, none, none⟩
        [(61, .ok .responseDone)] =
      .error (cleanupOnError false (flushToolResult ⟨some true, true, 0, 10, none, none⟩))
        .timeoutExceeded := by
  exact (C7_timeout_raises parse0 run_ls0 true false 60 0 61 ⟨some true, true, 0, 10, none, none⟩
    (.ok .responseDone) [] rfl (by decide)).2

/-- C7 counterexample: a run that accumulated the text `hi` before the clock
passed the window propagates a timeout error; the accumulated partial
content is not returned — no successful response is produced at all. -/
theorem C7_counterexample :
    (send_message parse0 run_ls0 true false 60 0 ⟨some true, true, 0, 10, none, none⟩
        [(0, .ok (.textDelta "hi")), (61, .ok .responseDone)] =
      .error ⟨none, true, 0, 10, none, none⟩ .timeoutExceeded) ∧
    ∀ (stx : WSState) (r : RTResponse),
      send_message parse0 run_ls0 true false 60 0 ⟨some true, true, 0, 10, none, none⟩
        [(0, .ok (.textDelta "hi")), (61, .ok .responseDone)] ≠ .ok stx r := by
  have heq : send_message parse0 run_ls0 true false 60 0 ⟨some true, true, 0, 10, none, none⟩
      [(0, .ok (.textDelta "hi")), (61, .ok .responseDone)] =
      .error ⟨none, true, 0, 10, none, none⟩ .timeoutExceeded := by decide
  refine ⟨heq, fun stx r h => ?_⟩
  rw [heq] at h
  exact SendResult.noConfusion h

/-- Unfolding of `noDangling` on a nonempty conversation. -/
theorem noDangling_cons (m : Message) (rest : List Message) :
    noDangling (m :: rest) =
      (m.tool_use.all (fun u => answeredIn u rest) && noDangling rest) := rfl

/-- Unfolding of `noDanglingButLast` on a nonempty conversation. -/
theorem noDanglingButLast_cons (m : Message) (rest : List Message) :
    noDanglingButLast (m :: rest) =
      ((rest.isEmpty || m.tool_use.all (fun u => answeredIn u rest)) && noDanglingButLast rest) := rfl

/-- A message whose content is a mapped list of tool results has no tool
uses. -/
theorem tool_use_of_toolResult_map (role : String) (g : ToolUse → ToolResult) :
    ∀ l : List ToolUse,
      (Message.mk role (l.map fun tu => Content.toolResult (g tu))).tool_use = [] := by
  intro l
  induction l with
  | nil => rfl
  | cons a l ih => simp [Message.tool_use, List.filterMap_cons, ih]

/-- The synthetic tool-result message has no tool uses. -/
theorem tool_use_interruptToolMsg (m : Message) : (interruptToolMsg m).tool_use = [] :=
  tool_use_of_toolResult_map "user"
    (fun tu => ⟨tu.id, "Interrupted by the user to make a correction", true⟩) m.tool_use

/-- The synthetic acknowledgement has no tool uses. -/
theorem tool_use_interruptAckMsg (m : Message) : (interruptAckMsg m).tool_use = [] := rfl

/-- The tool results of a message whose content is a mapped list of tool
results. -/
theorem toolResultsOf_map (role : String) (g : ToolUse → ToolResult) :
    ∀ l : List ToolUse,
      toolResultsOf (Message.mk role (l.map fun tu => Content.toolResult (g tu))) = l.map g := by
  intro l
  induction l with
  | nil => rfl
  | cons a l ih => simpa [toolResultsOf, List.filterMap_cons] using ih

/-- The tool results carried by the synthetic tool-result message: one error
result per pending tool use, with matching ids. -/
theorem toolResultsOf_interruptToolMsg (m : Message) :
    toolResultsOf (interruptToolMsg m) =
      m.tool_use.map (fun tu =>
        (⟨tu.id, "Interrupted by the user to make a correction", true⟩ : ToolResult)) :=
  toolResultsOf_map "user"
    (fun tu => ⟨tu.id, "Interrupted by the user to make a correction", true⟩) m.tool_use

/-- A conversation of messages without tool uses has no dangling tool use. -/
theorem noDangling_of_no_uses : ∀ ms : List Message,
    (∀ m ∈ ms, m.tool_use = []) → noDangling ms = true := by
  intro ms
  induction ms with
  | nil => intro _; rfl
  | cons m rest ih =>
    intro h
    have hm := h m (List.mem_cons_self m rest)
    simp [noDangling_cons, hm, ih (fun x hx => h x (List.mem_cons_of_mem m hx))]

/-- An answer found in a prefix is still found after extending the
conversation. -/
theorem answeredIn_mono (u : ToolUse) (l1 l2 : List Message)
    (h : answeredIn u l1 = true) : answeredIn u (l1 ++ l2) = true := by
  simp only [answeredIn, List.any_append]
  simp only [answeredIn] at h
  simp [h]

/-- Appending a suffix of use-free messages that answers every tool use of
the final message turns a conversation dangling at most in its final message
into one with no dangling tool use at all. -/
theorem noDangling_append_suffix : ∀ (ms suf : List Message),
    (∀ m ∈ suf, m.tool_use = []) →
    noDanglingButLast ms = true →
    (∀ mL, ms.getLast? = some mL → ∀ u ∈ mL.tool_use, answeredIn u suf = true) →
    noDangling (ms ++ suf) = true := by
  intro ms
  induction ms with
  | nil =>
    intro suf hsuf _ _
    exact noDangling_of_no_uses suf hsuf
  | cons m rest ih =>
    intro suf hsuf hbl hlast
    rcases rest with _ | ⟨m2, rest2⟩
    · have h1 : m.tool_use.all (fun u => answeredIn u suf) = true := by
        rw [List.all_eq_true]
        intro u hu
        exact hlast m rfl u hu
      have h2 := noDangling_of_no_uses suf hsuf
      simp [noDangling_cons, h1, h2]
    · have hbl2 := hbl
      rw [noDanglingButLast_cons, Bool.and_eq_true] at hbl2
      have hm : m.tool_use.all (fun u => answeredIn u (m2 :: rest2)) = true := by
        simpa using hbl2.1
      have hlast2 : ∀ mL, (m2 :: rest2).getLast? = some mL →
          ∀ u ∈ mL.tool_use, answeredIn u suf = true := by
        intro mL hL
        exact hlast mL (by rw [List.getLast?_cons_cons]; exact hL)
      have ihx := ih suf hsuf hbl2.2 hlast2
      rw [show (m :: m2 :: rest2) ++ suf = m :: ((m2 :: rest2) ++ suf) from rfl,
        noDangling_cons, Bool.and_eq_true]
      constructor
      · rw [List.all_eq_true]
        intro u hu
        exact answeredIn_mono u (m2 :: rest2) suf (List.all_eq_true.mp hm u hu)
      · exact ihx

/-- A conversation dangling at most in its final message, whose final message
has no tool use, has no dangling tool use at all. -/
theorem noDangling_of_butLast : ∀ ms : List Message,
    noDanglingButLast ms = true →
    (∀ mL, ms.getLast? = some mL → mL.tool_use = []) →
    noDangling ms = true := by
  intro ms
  induction ms with
  | nil => intro _ _; rfl
  | cons m rest ih =>
    intro hbl hlast
    rcases rest with _ | ⟨m2, rest2⟩
    · have hm := hlast m rfl
      simp [noDangling_cons, noDangling, hm]
    · have hbl2 := hbl
      rw [noDanglingButLast_cons, Bool.and_eq_true] at hbl2
      have hm : m.tool_use.all (fun u => answeredIn u (m2 :: rest2)) = true := by
        simpa using hbl2.1
      have hrec := ih hbl2.2
        (fun mL hL => hlast mL (by rw [List.getLast?_cons_cons]; exact hL))
      rw [noDangling_cons, Bool.and_eq_true]
      exact ⟨hm, hrec⟩

/-- The interrupt recovery always produces the popped conversation extended
by one common suffix on both the live and the committed list. -/
theorem interrupt_reply_shape (messages committed : List Message) :
    ∃ suffix : List Message, interrupt_reply messages committed =
      ((popPhase messages committed).1 ++ suffix, (popPhase messages committed).2 ++ suffix) := by
  rcases hP : popPhase messages committed with ⟨m1, c1⟩
  simp only [interrupt_reply, hP]
  rcases hL : m1.getLast? with _ | m <;> simp only [hL]
  · exact ⟨[], by simp⟩
  · by_cases hg : (m.role = "assistant" && !m.tool_use.isEmpty) = true
    · rw [if_pos hg]
      exact ⟨[interruptToolMsg m, interruptAckMsg m], rfl⟩
    · rw [if_neg hg]
      exact ⟨[], by simp⟩

/-- C3: interrupt recovery: a pending user message is removed from both the
live conversation and the committed list, both then extended by one common
suffix; when the remaining conversation ends in an assistant message with
pending tool requests, exactly one synthetic list of error tool results (one
per pending request, matching ids) and exactly one assistant acknowledgement
are appended to both lists; and under the session invariants — at most the
final message dangling, tool uses only in assistant messages — the recovered
conversation has a matching tool result after every tool use. -/
theorem C3_interrupt_recovery (messages committed : List Message) :
    (lastRoleIs "user" messages = true →
      ∃ suffix : List Message, interrupt_reply messages committed =
        (messages.dropLast ++ suffix, committed.dropLast ++ suffix)) ∧
    (∀ m : Message, (popPhase messages committed).1.getLast? = some m →
      m.role = "assistant" → m.tool_use.isEmpty = false →
      interrupt_reply messages committed =
        ((popPhase messages committed).1 ++ [interruptToolMsg m, interruptAckMsg m],
         (popPhase messages committed).2 ++ [interruptToolMsg m, interruptAckMsg m]) ∧
      (interruptToolMsg m).content =
        m.tool_use.map (fun tu => Content.toolResult
          ⟨tu.id, "Interrupted by the user to make a correction", true⟩)) ∧
    (noDanglingButLast (popPhase messages committed).1 = true →
      (∀ mL : Message, (popPhase messages committed).1.getLast? = some mL →
        mL.tool_use.isEmpty = false → mL.role = "assistant") →
      noDangling (interrupt_reply messages committed).1 = true) := by
  refine ⟨?_, ?_, ?_⟩
  · intro hu
    obtain ⟨suffix, hs⟩ := interrupt_reply_shape messages committed
    refine ⟨suffix, ?_⟩
    rw [hs]
    simp [popPhase, hu]
  · intro m hL hrole hne
    constructor
    · rcases hP : popPhase messages committed with ⟨m1, c1⟩
      rw [hP] at hL
      simp only at hL
      simp only [interrupt_reply, hP, hL]
      rw [if_pos (by rw [hrole, hne]; rfl :
        (m.role = "assistant" && !m.tool_use.isEmpty) = true)]
    · rfl
  · intro hbl hrole2
    rcases hP : popPhase messages committed with ⟨m1, c1⟩
    rw [hP] at hbl hrole2
    simp only at hbl hrole2
    rcases hL : m1.getLast? with _ | m
    · have hnil : m1 = [] := List.getLast?_eq_none_iff.mp hL
      subst hnil
      simp only [interrupt_reply, hP]
      rfl
    · by_cases hg : (m.role = "assistant" && !m.tool_use.isEmpty) = true
      · simp only [interrupt_reply, hP, hL]
        rw [if_pos hg]
        show noDangling (m1 ++ [interruptToolMsg m, interruptAckMsg m]) = true
        apply noDangling_append_suffix m1 [interruptToolMsg m, interruptAckMsg m]
        · intro x hx
          simp only [List.mem_cons, List.not_mem_nil, or_false] at hx
          rcases hx with h | h <;> subst h
          · exact tool_use_interruptToolMsg m
          · exact tool_use_interruptAckMsg m
        · exact hbl
        · intro mL hml u hu
          rw [hL] at hml
          obtain rfl : m = mL := Option.some.inj hml
          simp only [answeredIn, List.any_cons, List.any_nil]
          have hfound : (toolResultsOf (interruptToolMsg m)).any
              (fun r => r.tool_use_id == u.id) = true := by
            rw [toolResultsOf_interruptToolMsg]
            apply List.any_eq_true.mpr
            refine ⟨⟨u.id, "Interrupted by the user to make a correction", true⟩, ?_, ?_⟩
            · exact List.mem_map_of_mem _ hu
            · simp
          simp [hfound]
      · simp only [interrupt_reply, hP, hL]
        rw [if_neg hg]
        show noDangling m1 = true
        apply noDangling_of_butLast m1 hbl
        intro mL hml
        rw [hL] at hml
        obtain rfl : m = mL := Option.some.inj hml
        cases hie : m.tool_use.isEmpty
        · have hr := hrole2 m hL hie
          exact absurd (by rw [hr, hie]; rfl :
            (m.role = "assistant" && !m.tool_use.isEmpty) = true) hg
        · exact List.isEmpty_iff.mp hie

/-- A concrete conversation: an assistant message with two pending tool
requests followed by an unanswered user message. -/
def msgsW : List Message :=
  [⟨"assistant", [.toolUse ⟨"t1", "shell", .raw "x", false, none⟩,
                  .toolUse ⟨"t2", "shell", .raw "y", false, none⟩]⟩,
   ⟨"user", [.text "hi"]⟩]

/-- Witness for C3 on `msgsW`: the pending user message is removed, the
recovery branch fires for the assistant message with two pending requests,
and the recovered conversation has no dangling tool use. -/
theorem C3_interrupt_recovery_witness :
    (∃ suffix : List Message, interrupt_reply msgsW msgsW =
      (msgsW.dropLast ++ suffix, msgsW.dropLast ++ suffix)) ∧
    (interrupt_reply msgsW msgsW =
      ((popPhase msgsW msgsW).1 ++
        [interruptToolMsg ⟨"assistant", [.toolUse ⟨"t1", "shell", .raw "x", false, none⟩,
                                         .toolUse ⟨"t2", "shell", .raw "y", false, none⟩]⟩,
         interruptAckMsg ⟨"assistant", [.toolUse ⟨"t1", "shell", .raw "x", false, none⟩,
                                        .toolUse ⟨"t2", "shell", .raw "y", false, none⟩]⟩],
       (popPhase msgsW msgsW).2 ++
        [interruptToolMsg ⟨"assistant", [.toolUse ⟨"t1", "shell", .raw "x", false, none⟩,
                                         .toolUse ⟨"t2", "shell", .raw "y", false, none⟩]⟩,
         interruptAckMsg ⟨"assistant", [.toolUse ⟨"t1", "shell", .raw "x", false, none⟩,
                                        .toolUse ⟨"t2", "shell", .raw "y", false, none⟩]⟩])) ∧
    noDangling (interrupt_reply msgsW msgsW).1 = true := by
  have h := C3_interrupt_recovery msgsW msgsW
  refine ⟨h.1 rfl, ?_, ?_⟩
  · exact (h.2.1 ⟨"assistant", [.toolUse ⟨"t1", "shell", .raw "x", false, none⟩,
      .toolUse ⟨"t2", "shell", .raw "y", false, none⟩]⟩ rfl rfl rfl).1
  · refine h.2.2 rfl ?_
    intro mL hml _
    have h2 := Option.some.inj hml
    rw [← h2]
    rfl

/-- A decoder fixed at the single input `\x7b\x7d` decoded as the empty
dictionary, agreeing with `json.loads` there. -/
def parseW : String → Option JVal :=
  fun s => if s = "\x7b\x7d" then some (.jobj []) else none

/-- Witness for C10 on three concrete tool calls: a valid one converts to a
parsed non-error item, an invalid name is flagged, an undecodable argument
string keeps the raw string, and the converted message carries exactly the
converted items. -/
theorem C10_response_to_message_total_witness :
    (convert_tool_call parseW ⟨"1", "shell", "\x7b\x7d", none⟩ =
      ⟨"1", "shell", .parsed (.jobj []), false, none⟩) ∧
    ((convert_tool_call parseW ⟨"2", "bad name!", "\x7b\x7d", none⟩).is_error = true) ∧
    ((convert_tool_call parseW ⟨"3", "shell", "oops", none⟩).parameters = .raw "oops") ∧
    ((response_to_message parseW ⟨none, [⟨"1", "shell", "\x7b\x7d", none⟩]⟩).content.filterMap
        contentToolUse? = [⟨"1", "shell", .parsed (.jobj []), false, none⟩]) := by
  have h := C10_response_to_message_total parseW ⟨none, [⟨"1", "shell", "\x7b\x7d", none⟩]⟩
  have hgood : convert_tool_call parseW ⟨"1", "shell", "\x7b\x7d", none⟩ =
      ⟨"1", "shell", .parsed (.jobj []), false, none⟩ :=
    (h.2 ⟨"1", "shell", "\x7b\x7d", none⟩).2 (.jobj []) (by decide) rfl
  refine ⟨hgood, ?_, ?_, ?_⟩
  · exact ((h.2 ⟨"2", "bad name!", "\x7b\x7d", none⟩).1 (Or.inl (by decide))).1
  · exact ((h.2 ⟨"3", "shell", "oops", none⟩).1 (Or.inr rfl)).2.1
  · rw [h.1]
    simp [hgood]
